import Mathlib

/-!
Shallow embedding of the valty validation engine
(src/src/validators/validateObject.ts) and proofs about it.

Modelling conventions:
* JavaScript runtime data values are modelled by `JSVal` (numbers as `Int`;
  floating point, `NaN` and function-valued data are not needed by the code
  under verification and are omitted).
* Rule values are modelled by `RuleVal`.  A JS rule value can be: a falsy
  primitive, a truthy primitive, an array of rule-function slots, an object
  (either an array-rule `{arrayRules?, arrayElementRule?}` or a nested
  rule-set), or a function.  A function used as a rule-list entry returns a
  violation (`Slot.fn`), while a function used as a field rule or as an
  `arrayElementRule` builds a rule (`RuleVal.builder`); in JS both are plain
  functions, the split only records the role in which the value is used.
* `throw` is modelled by `Except.error`; the JS call-stack limit is modelled
  by an explicit `fuel` argument consumed once per recursive entry
  (`Except.error "Maximum call stack size exceeded"` when exhausted).
* Property access `o[key]` on a non-object yields `undefined`; index and
  `length` properties of arrays/strings are not modelled (the engine never
  reads them through `object[key]` in the validated scenarios).
-/

namespace Valty

/-- A JavaScript runtime value, as far as the validation engine inspects it. -/
inductive JSVal where
  | undef
  | nullv
  | boolv (b : Bool)
  | numv (n : Int)
  | strv (s : String)
  | arr (elems : List JSVal)
  | obj (fields : List (String × JSVal))

/-- JS truthiness of a data value. -/
def JSVal.truthy : JSVal → Bool
  | .undef => false
  | .nullv => false
  | .boolv b => b
  | .numv n => n != 0
  | .strv s => s != ""
  | .arr _ => true
  | .obj _ => true

/-- JS `typeof` of a data value (`typeof null` is `"object"`). -/
def JSVal.typeOf : JSVal → String
  | .undef => "undefined"
  | .nullv => "object"
  | .boolv _ => "boolean"
  | .numv _ => "number"
  | .strv _ => "string"
  | .arr _ => "object"
  | .obj _ => "object"

/-- `Array.isArray`. -/
def JSVal.isArr : JSVal → Bool
  | .arr _ => true
  | _ => false

/-- Property access `object[key]`: lookup among own fields of an object,
`undefined` otherwise. -/
def getProp (v : JSVal) (key : String) : JSVal :=
  match v with
  | .obj fields => (((fields.find? (fun p => p.1 == key)).map (fun p => p.2))).getD JSVal.undef
  | _ => JSVal.undef

/-- One entry of a primitive rule list (`ValidateFunc[]`): either an actual
rule function `(value, root) => violation | undefined`, or any other JS value
sitting in the slot. -/
inductive Slot where
  | fn (f : JSVal → JSVal → Option String)
  | val (v : JSVal)

/-- A JS value used as a validation rule. -/
inductive RuleVal where
  | undef
  | nullv
  | boolv (b : Bool)
  | numv (n : Int)
  | strv (s : String)
  | list (slots : List Slot)
  | obj (entries : List (String × RuleVal))
  | builder (f : JSVal → JSVal → RuleVal)

/-- JS truthiness of a rule value (arrays, objects and functions are truthy). -/
def RuleVal.truthy : RuleVal → Bool
  | .undef => false
  | .nullv => false
  | .boolv b => b
  | .numv n => n != 0
  | .strv s => s != ""
  | .list _ => true
  | .obj _ => true
  | .builder _ => true

/-- JS `typeof` of a rule value; note `typeof` of an array is `"object"`. -/
def RuleVal.typeOf : RuleVal → String
  | .undef => "undefined"
  | .nullv => "object"
  | .boolv _ => "boolean"
  | .numv _ => "number"
  | .strv _ => "string"
  | .list _ => "object"
  | .obj _ => "object"
  | .builder _ => "function"

def RuleVal.isBuilder : RuleVal → Bool
  | .builder _ => true
  | _ => false

/-- `Object.keys(rule)`: own enumerable keys.  An object yields its field
names, an array its index strings, a function has none. -/
def ruleOwnKeys : RuleVal → List String
  | .obj entries => entries.map (fun p => p.1)
  | .list slots => (List.range slots.length).map toString
  | _ => []

/-- Lines 22-28: a rule is an array-validation rule when every own key is in
`{arrayRules, arrayElementRule}` (vacuously true for `{}` and functions). -/
def isArrayValidationRule (rule : RuleVal) : Bool :=
  (ruleOwnKeys rule).all (fun key => key == "arrayRules" || key == "arrayElementRule")

/-- Property access on a rule value (`rule.arrayRules`, `rule.arrayElementRule`):
lookup among own fields of an object, `undefined` otherwise (in particular
`undefined` on arrays and functions). -/
def ruleGetProp (rule : RuleVal) (key : String) : RuleVal :=
  match rule with
  | .obj entries => (((entries.find? (fun p => p.1 == key)).map (fun p => p.2))).getD RuleVal.undef
  | _ => RuleVal.undef

/-- The `for (const key in validationRule)` iteration together with the
`hasOwnProperty` guard: own enumerable entries of an object rule-set.  A JS
`for..in` over a non-object rule-set visits no keys relevant to the claims
(numbers and functions have none; the engine is only ever given object
rule-sets past the initial truthiness check). -/
def ruleEntries : RuleVal → List (String × RuleVal)
  | .obj entries => entries
  | _ => []

mutual
/-- `ErrorOf<T>`: sparse error object keyed by failing fields. -/
inductive ErrTree where
  | mk (entries : List (String × FieldErr))

/-- The value stored in the error tree for one failing field. -/
inductive FieldErr where
  | violations (vs : List String)
  | arrayErr (arrayErrors : Option (List String)) (arrayElementErrors : Option (List ElemErr))
  | nested (tree : ErrTree)

/-- One entry of `arrayElementErrors`. -/
inductive ElemErr where
  | mk (index : Nat) (errors : ErrTree) (attemptedValue : JSVal)
end

def ErrTree.entries : ErrTree → List (String × FieldErr)
  | .mk es => es

def ElemErr.index : ElemErr → Nat
  | .mk i _ _ => i

def ElemErr.errors : ElemErr → ErrTree
  | .mk _ e _ => e

def ElemErr.attemptedValue : ElemErr → JSVal
  | .mk _ _ v => v

/-- A field error is non-vacuous: primitive violations are a non-empty list,
an array error carries at least one of its two parts, a nested error carries
an error tree. -/
def FieldErr.failedB : FieldErr → Bool
  | .violations vs => !vs.isEmpty
  | .arrayErr a e => a.isSome || e.isSome
  | .nested _ => true

/-- `PrimitiveFieldValidationResult` (lines 12-15). -/
structure PrimitiveFieldValidationResult where
  isValid : Bool
  errors : List String

/-- `ErrorOfArray<T>`: the result of the array field validator. -/
structure ErrorOfArray where
  arrayErrors : Option (List String)
  arrayElementErrors : Option (List ElemErr)

/-- The loop body of `validatePrimitiveField` (lines 31-49), instrumented with
the list of positions of the slots whose function actually gets invoked.
A falsy slot is skipped (`continue`), a truthy non-function slot throws, a
function slot is invoked with `(object[key], root)` and a truthy returned
violation is collected. -/
def runRuleList (key : String) (object root : JSVal) (pos : Nat) :
    List Slot → Except String (List String × List Nat)
  | [] => .ok ([], [])
  | Slot.val v :: rest =>
      if v.truthy then .error "propertyRuleFunc is not a function"
      else runRuleList key object root (pos + 1) rest
  | Slot.fn f :: rest =>
      match runRuleList key object root (pos + 1) rest with
      | .error e => .error e
      | .ok (vs, tr) =>
          match f (getProp object key) root with
          | some violation => .ok (violation :: vs, pos :: tr)
          | none => .ok (vs, pos :: tr)

/-- `validatePrimitiveField` (lines 30-56): run the rule list, report the
collected violations and `isValid := violations.length === 0`. -/
def validatePrimitiveField (key : String) (object root : JSVal) (slots : List Slot) :
    Except String PrimitiveFieldValidationResult :=
  match runRuleList key object root 0 slots with
  | .error e => .error e
  | .ok (violations, _) => .ok { errors := violations, isValid := violations.length == 0 }

/-- Lines 72-79: the `for` loop over `arrayRules.length`.  Each iteration runs
`validatePrimitiveField` on the whole `arrayRules` list and, when the result is
invalid, assigns its `errors` to `arrayErrors`.  Instrumented with the
concatenated invocation traces of all iterations. -/
def arrayRulesLoop (key : String) (object root : JSVal) (slots : List Slot) :
    Nat → Option (List String) → Except String (Option (List String) × List Nat)
  | 0, acc => .ok (acc, [])
  | n + 1, acc =>
      match runRuleList key object root 0 slots with
      | .error e => .error e
      | .ok (violations, tr) =>
          let acc := if violations.length == 0 then acc else some violations
          match arrayRulesLoop key object root slots n acc with
          | .error e => .error e
          | .ok (res, trRest) => .ok (res, tr ++ trRest)

/-- Lines 72-79 as used by the array field validator: when `rule.arrayRules`
is a truthy array, run the loop over its length; a truthy non-array has an
`undefined` `length`, so the loop body never runs. -/
def runArrayRules (key : String) (object root : JSVal) (ar : RuleVal) :
    Except String (Option (List String)) :=
  if ar.truthy then
    match ar with
    | .list slots =>
        match arrayRulesLoop key object root slots slots.length none with
        | .error e => .error e
        | .ok (res, _) => .ok res
    | _ => .ok none
  else .ok none

/-- Lines 85-91: a function `arrayElementRule` is invoked with
`(element, root)` to obtain the element's rule-set, any other value is used
directly as the rule-set. -/
def resolveElementRule (elementRule : RuleVal) (element root : JSVal) : RuleVal :=
  match elementRule with
  | RuleVal.builder f => f element root
  | r => r

/-- Lines 81-105: element-wise validation.  For each element, the element
rule-set is resolved, the element is validated recursively (through the
abstract `vObj`), and a failing element contributes
`{index, errors, attemptedValue}` in source order. -/
def validateElemsGo (vObj : JSVal → JSVal → RuleVal → Except String (Option ErrTree))
    (root : JSVal) (elementRule : RuleVal) : Nat → List JSVal → Except String (List ElemErr)
  | _, [] => .ok []
  | idx, element :: rest =>
      match vObj element root (resolveElementRule elementRule element root) with
      | .error e => .error e
      | .ok err =>
          match validateElemsGo vObj root elementRule (idx + 1) rest with
          | .error e => .error e
          | .ok tail =>
              match err with
              | some t => .ok (ElemErr.mk idx t element :: tail)
              | none => .ok tail

/-- The non-builder body of `validateArrayField` (lines 60, 68-107): run the
whole-array rules, then, when `arrayElementRule` is truthy and the value is an
array, the element loop; `arrayElementErrors` is only created when some
element failed. -/
def validateArrayBody (vObj : JSVal → JSVal → RuleVal → Except String (Option ErrTree))
    (key : String) (object root : JSVal) (rule : RuleVal) : Except String ErrorOfArray :=
  let value := getProp object key
  match runArrayRules key object root (ruleGetProp rule "arrayRules") with
  | .error e => .error e
  | .ok arrayErrors =>
      let er := ruleGetProp rule "arrayElementRule"
      let elemRes : Except String (List ElemErr) :=
        match value with
        | .arr xs => if er.truthy then validateElemsGo vObj root er 0 xs else .ok []
        | _ => .ok []
      match elemRes with
      | .error e => .error e
      | .ok elemErrs =>
          .ok { arrayErrors := arrayErrors
              , arrayElementErrors := if elemErrs.isEmpty then none else some elemErrs }

/-- `validateArrayField` (lines 58-108): a function rule is a dynamic builder,
invoked with `(object[key], root)`, and the built rule re-enters the array
field validator (one stack frame of fuel); any other rule is processed by
`validateArrayBody`. -/
def validateArrayFieldGo (vObj : JSVal → JSVal → RuleVal → Except String (Option ErrTree)) :
    Nat → String → JSVal → JSVal → RuleVal → Except String ErrorOfArray
  | 0, _, _, _, RuleVal.builder _ => .error "Maximum call stack size exceeded"
  | m + 1, key, object, root, RuleVal.builder f =>
      validateArrayFieldGo vObj m key object root (f (getProp object key) root)
  | _, key, object, root, rule => validateArrayBody vObj key object root rule

/-- `ObjectFieldValidationResult` (lines 17-20); the `violations` local of
`validateObjectField` is always empty, so `isValid` reduces to the absence of
a nested error tree. -/
structure ObjectFieldValidationResult where
  isValid : Bool
  errors : Option ErrTree

/-- `validateObjectField` (lines 111-122): validate `object[key]` recursively
against the field's rule as a nested rule-set. -/
def validateObjectField (vObj : JSVal → JSVal → RuleVal → Except String (Option ErrTree))
    (key : String) (object root : JSVal) (rule : RuleVal) :
    Except String ObjectFieldValidationResult :=
  match vObj (getProp object key) root rule with
  | .error e => .error e
  | .ok error => .ok { errors := error, isValid := !error.isSome }

/-- The body of one iteration of the key loop (lines 150-186): a falsy rule is
skipped (`continue`); a rule whose `typeof` is not in
`["array", "object", "function"]` throws (note JS `typeof` never yields
`"array"`); then the first matching branch of primitive
(`Array.isArray(rule)`), array-rule shape (`isArrayValidationRule`), or
object-typed field value runs, and the field error, when any, is reported
(`assignErrorsIfAny` only runs for failing results). -/
def validateOneField
    (vObj : JSVal → JSVal → RuleVal → Except String (Option ErrTree))
    (vArr : String → JSVal → JSVal → RuleVal → Except String ErrorOfArray)
    (object root : JSVal) (key : String) (rule : RuleVal) :
    Except String (Option FieldErr) :=
  if rule.truthy = false then .ok none
  else if (["array", "object", "function"].contains rule.typeOf) = false then
    .error (rule.typeOf ++ " is not a valid rule.")
  else
    match rule with
    | RuleVal.list slots =>
        match validatePrimitiveField key object root slots with
        | .error e => .error e
        | .ok r =>
            .ok (if r.isValid then none else some (FieldErr.violations r.errors))
    | _ =>
        if isArrayValidationRule rule then
          match vArr key object root rule with
          | .error e => .error e
          | .ok result =>
              .ok (if result.arrayErrors.isSome || result.arrayElementErrors.isSome
                   then some (FieldErr.arrayErr result.arrayErrors result.arrayElementErrors)
                   else none)
        else if (getProp object key).typeOf == "object" then
          match validateObjectField vObj key object root rule with
          | .error e => .error e
          | .ok r =>
              match r.errors with
              | some t => .ok (some (FieldErr.nested t))
              | none => .ok none
        else .ok none

/-- Lines 148-188: iterate the rule-set's own entries in order, accumulating
the failing fields under their keys. -/
def validateFieldsGo
    (vObj : JSVal → JSVal → RuleVal → Except String (Option ErrTree))
    (vArr : String → JSVal → JSVal → RuleVal → Except String ErrorOfArray)
    (object root : JSVal) : List (String × RuleVal) → Except String (List (String × FieldErr))
  | [] => .ok []
  | (key, rule) :: rest =>
      match validateOneField vObj vArr object root key rule with
      | .error e => .error e
      | .ok fe =>
          match validateFieldsGo vObj vArr object root rest with
          | .error e => .error e
          | .ok tail =>
              .ok (match fe with
                   | some f => (key, f) :: tail
                   | none => tail)

/-- `validateObject` (lines 130-190): throw on a falsy rule-set, replace a
falsy object by `{}`, iterate the rule-set's declared keys, and return
`undefined` when no field failed. -/
def validateObject : Nat → JSVal → JSVal → RuleVal → Except String (Option ErrTree)
  | 0, _, _, _ => .error "Maximum call stack size exceeded"
  | fuel + 1, object, root, validationRule =>
      if validationRule.truthy = false then
        .error "validant: validation rule is null or undefined."
      else
        match validateFieldsGo (validateObject fuel)
            (validateArrayFieldGo (validateObject fuel) fuel)
            (if object.truthy = false then JSVal.obj [] else object) root
            (ruleEntries validationRule) with
        | .error e => .error e
        | .ok [] => .ok none
        | .ok (e :: es) => .ok (some (ErrTree.mk (e :: es)))

/-- Characterization of the element loop used in the statements: the entry
contributed by the element at position `p.1` with value `p.2`, when the
(possibly built) element rule-set reports an error tree for it. -/
def elemCheck (vObj : JSVal → JSVal → RuleVal → Except String (Option ErrTree))
    (root : JSVal) (elementRule : RuleVal) (p : Nat × JSVal) : Option ElemErr :=
  match vObj p.2 root (resolveElementRule elementRule p.2 root) with
  | .ok (some t) => some (ElemErr.mk p.1 t p.2)
  | _ => none

/-- A sample required-style rule function used in concrete instances. -/
def requiredRule : JSVal → JSVal → Option String := fun value _ =>
  if value.truthy then none else some "This field is required."

/-- A sample minimum-length rule function used in concrete instances. -/
def minLength3Rule : JSVal → JSVal → Option String := fun value _ =>
  match value with
  | .strv s => if s.length < 3 then some "Minimum length is 3." else none
  | _ => some "Minimum length is 3."

/-- A sample whole-array rule function used in concrete instances. -/
def nonEmptyArrayRule : JSVal → JSVal → Option String := fun value _ =>
  match value with
  | .arr elems => if elems.isEmpty then some "Array must not be empty." else none
  | _ => some "Array must not be empty."

/-- A sample rule function that always reports the violation "F". -/
def alwaysF : JSVal → JSVal → Option String := fun _ _ => some "F"

/-- A sample rule function that always reports the violation "G". -/
def alwaysG : JSVal → JSVal → Option String := fun _ _ => some "G"

/-- A sample rule-set requiring the field `name`. -/
def sampleRequiredRuleSet : RuleVal :=
  RuleVal.obj [("name", RuleVal.list [Slot.fn requiredRule])]

/-- A sample array-rule value with both whole-array rules and an element
rule-set. -/
def sampleArrayRule : RuleVal :=
  RuleVal.obj [("arrayRules", RuleVal.list [Slot.fn nonEmptyArrayRule]),
               ("arrayElementRule", sampleRequiredRuleSet)]

/-- Replacing a falsy `object` by `{}` (line 134-136) makes validation of any
falsy object agree with validation of the empty object. -/
theorem validateObject_falsy_object (fuel : Nat) (o root : JSVal) (rule : RuleVal)
    (h : o.truthy = false) :
    validateObject fuel o root rule = validateObject fuel (JSVal.obj []) root rule := by
  cases fuel with
  | zero => rfl
  | succ fuel =>
      have h2 : (JSVal.obj []).truthy = true := rfl
      simp [validateObject, h, h2]

/-- A non-builder rule is processed by `validateArrayBody` at every fuel. -/
theorem validateArrayFieldGo_nonbuilder (vObj : JSVal → JSVal → RuleVal → Except String (Option ErrTree))
    (fuel : Nat) (key : String) (object root : JSVal) (rule : RuleVal)
    (h : rule.isBuilder = false) :
    validateArrayFieldGo vObj fuel key object root rule
      = validateArrayBody vObj key object root rule := by
  cases rule <;> cases fuel <;> first
    | rfl
    | exact absurd h (by simp [RuleVal.isBuilder])

/-- Successful runs of the primitive rule-list loop: the collected violations
are exactly what the function slots produce, in slot order, and the invocation
trace is exactly the positions of the function slots, in order. -/
theorem runRuleList_ok (key : String) (object root : JSVal) :
    ∀ (slots : List Slot) (pos : Nat) (out : List String × List Nat),
      runRuleList key object root pos slots = .ok out →
      out.1 = slots.filterMap (fun s => match s with
        | Slot.fn f => f (getProp object key) root
        | Slot.val _ => none) ∧
      out.2 = (slots.enumFrom pos).filterMap (fun p => match p.2 with
        | Slot.fn _ => some p.1
        | Slot.val _ => none) := by
  intro slots
  induction slots with
  | nil =>
      intro pos out h
      simp only [runRuleList] at h
      cases h
      exact ⟨rfl, rfl⟩
  | cons s rest ih =>
      intro pos out h
      cases s with
      | val v =>
          simp only [runRuleList] at h
          cases hv : v.truthy with
          | true => rw [hv] at h; simp at h
          | false =>
              rw [hv] at h
              simp only [Bool.false_eq_true, if_false] at h
              obtain ⟨h1, h2⟩ := ih (pos + 1) out h
              refine ⟨?_, ?_⟩
              · rw [h1]; simp [List.filterMap_cons]
              · rw [h2]; simp [List.enumFrom_cons, List.filterMap_cons]
      | fn f =>
          simp only [runRuleList] at h
          cases hrec : runRuleList key object root (pos + 1) rest with
          | error e => rw [hrec] at h; exact Except.noConfusion h
          | ok out2 =>
              rw [hrec] at h
              obtain ⟨vs, tr⟩ := out2
              obtain ⟨h1, h2⟩ := ih (pos + 1) (vs, tr) hrec
              cases hf : f (getProp object key) root with
              | some violation =>
                  rw [hf] at h
                  cases h
                  refine ⟨?_, ?_⟩
                  · simpa [List.filterMap_cons, hf] using h1
                  · simpa [List.enumFrom_cons, List.filterMap_cons] using h2
              | none =>
                  rw [hf] at h
                  cases h
                  refine ⟨?_, ?_⟩
                  · simpa [List.filterMap_cons, hf] using h1
                  · simpa [List.enumFrom_cons, List.filterMap_cons] using h2

/-- Successful runs of `validatePrimitiveField`: errors are the violations
produced by the function slots in order, `isValid` is their emptiness check,
and the underlying loop invoked exactly the function slots, in position
order. -/
theorem validatePrimitiveField_ok {key : String} {object root : JSVal} {slots : List Slot}
    {r : PrimitiveFieldValidationResult}
    (h : validatePrimitiveField key object root slots = .ok r) :
    r.errors = slots.filterMap (fun s => match s with
      | Slot.fn f => f (getProp object key) root
      | Slot.val _ => none) ∧
    r.isValid = (r.errors.length == 0) ∧
    runRuleList key object root 0 slots
      = .ok (r.errors, (slots.enum).filterMap (fun p => match p.2 with
          | Slot.fn _ => some p.1
          | Slot.val _ => none)) := by
  unfold validatePrimitiveField at h
  cases hrl : runRuleList key object root 0 slots with
  | error e => rw [hrl] at h; exact Except.noConfusion h
  | ok out =>
      rw [hrl] at h
      obtain ⟨vs, tr⟩ := out
      cases h
      obtain ⟨h1, h2⟩ := runRuleList_ok key object root slots 0 (vs, tr) hrl
      refine ⟨h1, rfl, ?_⟩
      have he : slots.enum = List.enumFrom 0 slots := rfl
      rw [he, ← h2]

/-- The key loop stores a field error only when the field failed: a reported
primitive error list is non-empty, a reported array error has at least one of
its two parts, a reported nested error carries an error tree. -/
theorem validateOneField_ok_some
    {vObj : JSVal → JSVal → RuleVal → Except String (Option ErrTree)}
    {vArr : String → JSVal → JSVal → RuleVal → Except String ErrorOfArray}
    {object root : JSVal} {key : String} {rule : RuleVal} {fld : FieldErr}
    (h : validateOneField vObj vArr object root key rule = .ok (some fld)) :
    fld.failedB = true := by
  have hobj : (["array", "object", "function"].contains "object") = true := by decide
  have hfun : (["array", "object", "function"].contains "function") = true := by decide
  cases rule with
  | undef => simp [validateOneField, RuleVal.truthy] at h
  | nullv => simp [validateOneField, RuleVal.truthy] at h
  | boolv b =>
      cases b with
      | false => simp [validateOneField, RuleVal.truthy] at h
      | true =>
          have hb : (["array", "object", "function"].contains "boolean") = false := by decide
          simp [validateOneField, RuleVal.truthy, RuleVal.typeOf, hb] at h
  | numv n =>
      cases hn : (n != 0) with
      | false => simp [validateOneField, RuleVal.truthy, hn] at h
      | true =>
          have hb : (["array", "object", "function"].contains "number") = false := by decide
          simp [validateOneField, RuleVal.truthy, RuleVal.typeOf, hn, hb] at h
  | strv s =>
      cases hn : (s != "") with
      | false => simp [validateOneField, RuleVal.truthy, hn] at h
      | true =>
          have hb : (["array", "object", "function"].contains "string") = false := by decide
          simp [validateOneField, RuleVal.truthy, RuleVal.typeOf, hn, hb] at h
  | list slots =>
      cases hp : validatePrimitiveField key object root slots with
      | error e => simp [validateOneField, RuleVal.truthy, RuleVal.typeOf, hobj, hp] at h
      | ok r =>
          cases hv : r.isValid with
          | true => simp [validateOneField, RuleVal.truthy, RuleVal.typeOf, hobj, hp, hv] at h
          | false =>
              simp [validateOneField, RuleVal.truthy, RuleVal.typeOf, hobj, hp, hv] at h
              have hlen := (validatePrimitiveField_ok hp).2.1
              rw [hv] at hlen
              cases he : r.errors with
              | nil => rw [he] at hlen; simp at hlen
              | cons a as => rw [← h, he]; simp [FieldErr.failedB]
  | obj entries =>
      cases ha : isArrayValidationRule (RuleVal.obj entries) with
      | true =>
          cases hvA : vArr key object root (RuleVal.obj entries) with
          | error e => simp [validateOneField, RuleVal.truthy, RuleVal.typeOf, hobj, ha, hvA] at h
          | ok result =>
              cases hio : (result.arrayErrors.isSome || result.arrayElementErrors.isSome) with
              | false =>
                  simp [validateOneField, RuleVal.truthy, RuleVal.typeOf, hobj, ha, hvA, hio] at h
              | true =>
                  simp [validateOneField, RuleVal.truthy, RuleVal.typeOf, hobj, ha, hvA, hio] at h
                  rw [← h]
                  simpa [FieldErr.failedB] using hio
      | false =>
          cases hvt : ((getProp object key).typeOf == "object") with
          | false => simp [validateOneField, RuleVal.truthy, RuleVal.typeOf, hobj, ha, hvt] at h
          | true =>
              cases hof : validateObjectField vObj key object root (RuleVal.obj entries) with
              | error e =>
                  simp [validateOneField, RuleVal.truthy, RuleVal.typeOf, hobj, ha, hvt, hof] at h
              | ok r =>
                  cases he : r.errors with
                  | none =>
                      simp [validateOneField, RuleVal.truthy, RuleVal.typeOf, hobj, ha, hvt,
                        hof, he] at h
                  | some t =>
                      simp [validateOneField, RuleVal.truthy, RuleVal.typeOf, hobj, ha, hvt,
                        hof, he] at h
                      rw [← h]
                      simp [FieldErr.failedB]
  | builder f =>
      have ha : isArrayValidationRule (RuleVal.builder f) = true := rfl
      cases hvA : vArr key object root (RuleVal.builder f) with
      | error e => simp [validateOneField, RuleVal.truthy, RuleVal.typeOf, hfun, ha, hvA] at h
      | ok result =>
          cases hio : (result.arrayErrors.isSome || result.arrayElementErrors.isSome) with
          | false =>
              simp [validateOneField, RuleVal.truthy, RuleVal.typeOf, hfun, ha, hvA, hio] at h
          | true =>
              simp [validateOneField, RuleVal.truthy, RuleVal.typeOf, hfun, ha, hvA, hio] at h
              rw [← h]
              simpa [FieldErr.failedB] using hio

/-- Successful runs of the key loop report a subsequence of the declared keys,
in declaration order, and only non-vacuous field errors. -/
theorem validateFieldsGo_ok
    (vObj : JSVal → JSVal → RuleVal → Except String (Option ErrTree))
    (vArr : String → JSVal → JSVal → RuleVal → Except String ErrorOfArray)
    (object root : JSVal) :
    ∀ (entries : List (String × RuleVal)) (es : List (String × FieldErr)),
      validateFieldsGo vObj vArr object root entries = .ok es →
      List.Sublist (es.map Prod.fst) (entries.map Prod.fst) ∧
      ∀ p ∈ es, FieldErr.failedB p.2 = true := by
  intro entries
  induction entries with
  | nil =>
      intro es h
      simp only [validateFieldsGo] at h
      cases h
      exact ⟨List.Sublist.refl _, by simp⟩
  | cons kr rest ih =>
      obtain ⟨key, rule⟩ := kr
      intro es h
      simp only [validateFieldsGo] at h
      cases h1 : validateOneField vObj vArr object root key rule with
      | error e => rw [h1] at h; exact Except.noConfusion h
      | ok fe =>
          rw [h1] at h
          cases h2 : validateFieldsGo vObj vArr object root rest with
          | error e => rw [h2] at h; exact Except.noConfusion h
          | ok tail =>
              rw [h2] at h
              obtain ⟨ihs, ihf⟩ := ih tail h2
              cases fe with
              | some fld =>
                  cases h
                  refine ⟨?_, ?_⟩
                  · simpa using List.Sublist.cons₂ key ihs
                  · intro p hp
                    rcases List.mem_cons.mp hp with hp | hp
                    · rw [hp]
                      exact validateOneField_ok_some h1
                    · exact ihf p hp
              | none =>
                  cases h
                  exact ⟨ihs.cons key, ihf⟩

/-- Successful runs of the element loop are exactly the enumerated elements
kept by `elemCheck`. -/
theorem validateElemsGo_ok
    (vObj : JSVal → JSVal → RuleVal → Except String (Option ErrTree))
    (root : JSVal) (elementRule : RuleVal) :
    ∀ (xs : List JSVal) (idx : Nat) (es : List ElemErr),
      validateElemsGo vObj root elementRule idx xs = .ok es →
      es = (xs.enumFrom idx).filterMap (elemCheck vObj root elementRule) := by
  intro xs
  induction xs with
  | nil =>
      intro idx es h
      simp only [validateElemsGo] at h
      cases h
      simp
  | cons x rest ih =>
      intro idx es h
      simp only [validateElemsGo] at h
      cases hv : vObj x root (resolveElementRule elementRule x root) with
      | error e => rw [hv] at h; exact Except.noConfusion h
      | ok err =>
          rw [hv] at h
          cases h3 : validateElemsGo vObj root elementRule (idx + 1) rest with
          | error e => rw [h3] at h; exact Except.noConfusion h
          | ok tail =>
              rw [h3] at h
              have htail := ih (idx + 1) tail h3
              cases err with
              | some t =>
                  cases h
                  have hc : elemCheck vObj root elementRule (idx, x)
                      = some (ElemErr.mk idx t x) := by simp [elemCheck, hv]
                  rw [List.enumFrom_cons, List.filterMap_cons]
                  simp [hc, htail]
              | none =>
                  cases h
                  have hc : elemCheck vObj root elementRule (idx, x) = none := by
                    simp [elemCheck, hv]
                  rw [List.enumFrom_cons, List.filterMap_cons]
                  simp [hc, htail]

/-- An entry kept by `elemCheck` carries the enumerated position and the
element itself. -/
theorem elemCheck_some
    {vObj : JSVal → JSVal → RuleVal → Except String (Option ErrTree)}
    {root : JSVal} {elementRule : RuleVal} {p : Nat × JSVal} {e : ElemErr}
    (h : elemCheck vObj root elementRule p = some e) :
    e.index = p.1 ∧ e.attemptedValue = p.2 := by
  unfold elemCheck at h
  split at h
  · cases h; exact ⟨rfl, rfl⟩
  · exact Option.noConfusion h

/-- The indices of the entries kept by `elemCheck` form a subsequence of the
enumerated positions. -/
theorem filterMap_elemCheck_index_sublist
    (vObj : JSVal → JSVal → RuleVal → Except String (Option ErrTree))
    (root : JSVal) (elementRule : RuleVal) :
    ∀ (l : List (Nat × JSVal)),
      List.Sublist ((l.filterMap (elemCheck vObj root elementRule)).map ElemErr.index)
        (l.map Prod.fst) := by
  intro l
  induction l with
  | nil => simp
  | cons p rest ih =>
      cases hc : elemCheck vObj root elementRule p with
      | none =>
          rw [List.filterMap_cons, hc, List.map_cons]
          exact ih.cons p.1
      | some e =>
          rw [List.filterMap_cons, hc, List.map_cons, List.map_cons,
            (elemCheck_some hc).1]
          exact ih.cons₂ p.1

/-- An entry kept by `elemCheck` over an enumeration of `xs` points back at
its element: the recorded index is in range and `attemptedValue` is the
element of `xs` at that index. -/
theorem mem_filterMap_elemCheck
    (vObj : JSVal → JSVal → RuleVal → Except String (Option ErrTree))
    (root : JSVal) (elementRule : RuleVal) :
    ∀ (xs : List JSVal) (idx : Nat) (e : ElemErr),
      e ∈ (xs.enumFrom idx).filterMap (elemCheck vObj root elementRule) →
      idx ≤ e.index ∧ xs[e.index - idx]? = some e.attemptedValue := by
  intro xs
  induction xs with
  | nil => intro idx e h; simp [List.enumFrom] at h
  | cons x rest ih =>
      intro idx e h
      rw [List.enumFrom_cons, List.filterMap_cons] at h
      cases hc : elemCheck vObj root elementRule (idx, x) with
      | none =>
          rw [hc] at h
          obtain ⟨h1, h2⟩ := ih (idx + 1) e h
          refine ⟨by omega, ?_⟩
          have hstep : e.index - idx = (e.index - (idx + 1)) + 1 := by omega
          rw [hstep]
          simpa using h2
      | some e2 =>
          rw [hc] at h
          rcases List.mem_cons.mp h with h | h
          · subst h
            obtain ⟨hi, ha⟩ := elemCheck_some hc
            refine ⟨by omega, ?_⟩
            have hz : e.index - idx = 0 := by omega
            rw [hz, ha]
            simp
          · obtain ⟨h1, h2⟩ := ih (idx + 1) e h
            refine ⟨by omega, ?_⟩
            have hstep : e.index - idx = (e.index - (idx + 1)) + 1 := by omega
            rw [hstep]
            simpa using h2

/-- The violations and the error outcome of the rule-list loop do not depend
on the position offset used for the instrumentation trace. -/
theorem runRuleList_fst_pos (key : String) (object root : JSVal) :
    ∀ (slots : List Slot) (p q : Nat),
      Except.map Prod.fst (runRuleList key object root p slots)
        = Except.map Prod.fst (runRuleList key object root q slots) := by
  intro slots
  induction slots with
  | nil => intro p q; rfl
  | cons s rest ih =>
      intro p q
      cases s with
      | val v =>
          simp only [runRuleList]
          cases hv : v.truthy with
          | true => simp
          | false => simpa using ih (p + 1) (q + 1)
      | fn f =>
          simp only [runRuleList]
          have hpq := ih (p + 1) (q + 1)
          cases hp2 : runRuleList key object root (p + 1) rest with
          | error e =>
              rw [hp2] at hpq
              cases hq2 : runRuleList key object root (q + 1) rest with
              | error e2 =>
                  rw [hq2] at hpq
                  simp only [Except.map] at hpq
                  cases hpq
                  rfl
              | ok out2 =>
                  rw [hq2] at hpq
                  simp [Except.map] at hpq
          | ok out =>
              cases hq2 : runRuleList key object root (q + 1) rest with
              | error e2 =>
                  rw [hp2, hq2] at hpq
                  simp [Except.map] at hpq
              | ok out2 =>
                  rw [hp2, hq2] at hpq
                  simp only [Except.map, Except.ok.injEq] at hpq
                  obtain ⟨vs, tr⟩ := out
                  obtain ⟨vs2, tr2⟩ := out2
                  simp only at hpq
                  cases hpq
                  cases f (getProp object key) root <;> rfl

/-- A falsy value sitting in a rule-list slot is skipped without affecting
the result. -/
theorem validatePrimitiveField_falsy_slot (key : String) (object root : JSVal) (v : JSVal)
    (rest : List Slot) (h : v.truthy = false) :
    validatePrimitiveField key object root (Slot.val v :: rest)
      = validatePrimitiveField key object root rest := by
  unfold validatePrimitiveField
  have hstep : runRuleList key object root 0 (Slot.val v :: rest)
      = runRuleList key object root 1 rest := by
    simp [runRuleList, h]
  rw [hstep]
  have hpos := runRuleList_fst_pos key object root rest 1 0
  cases h1 : runRuleList key object root 1 rest with
  | error e =>
      rw [h1] at hpos
      cases h0 : runRuleList key object root 0 rest with
      | error e0 =>
          rw [h0] at hpos
          simp only [Except.map] at hpos
          cases hpos
          rfl
      | ok out0 =>
          rw [h0] at hpos
          simp [Except.map] at hpos
  | ok out =>
      rw [h1] at hpos
      cases h0 : runRuleList key object root 0 rest with
      | error e0 =>
          rw [h0] at hpos
          simp [Except.map] at hpos
      | ok out0 =>
          rw [h0] at hpos
          simp only [Except.map, Except.ok.injEq] at hpos
          obtain ⟨vs, tr⟩ := out
          obtain ⟨vs0, tr0⟩ := out0
          simp only at hpos
          cases hpos
          rfl

/-- A key whose per-field processing reports no error contributes nothing to
the key loop. -/
theorem validateFieldsGo_skip_head
    (vObj : JSVal → JSVal → RuleVal → Except String (Option ErrTree))
    (vArr : String → JSVal → JSVal → RuleVal → Except String ErrorOfArray)
    (object root : JSVal) (key : String) (rule : RuleVal)
    (rest : List (String × RuleVal))
    (h : validateOneField vObj vArr object root key rule = .ok none) :
    validateFieldsGo vObj vArr object root ((key, rule) :: rest)
      = validateFieldsGo vObj vArr object root rest := by
  simp only [validateFieldsGo, h]
  cases validateFieldsGo vObj vArr object root rest <;> rfl

/-- A key whose per-field processing throws makes the whole key loop throw. -/
theorem validateFieldsGo_head_error
    (vObj : JSVal → JSVal → RuleVal → Except String (Option ErrTree))
    (vArr : String → JSVal → JSVal → RuleVal → Except String ErrorOfArray)
    (object root : JSVal) (key : String) (rule : RuleVal)
    (rest : List (String × RuleVal)) (e : String)
    (h : validateOneField vObj vArr object root key rule = .error e) :
    validateFieldsGo vObj vArr object root ((key, rule) :: rest) = .error e := by
  simp [validateFieldsGo, h]

/-- A falsy rule for a key is skipped by the key loop (line 152-154). -/
theorem validateOneField_falsy
    (vObj : JSVal → JSVal → RuleVal → Except String (Option ErrTree))
    (vArr : String → JSVal → JSVal → RuleVal → Except String ErrorOfArray)
    (object root : JSVal) (key : String) (rule : RuleVal) (h : rule.truthy = false) :
    validateOneField vObj vArr object root key rule = .ok none := by
  simp [validateOneField, h]

/-- A truthy rule whose `typeof` is not allowed throws (lines 156-161). -/
theorem validateOneField_bad_type
    (vObj : JSVal → JSVal → RuleVal → Except String (Option ErrTree))
    (vArr : String → JSVal → JSVal → RuleVal → Except String ErrorOfArray)
    (object root : JSVal) (key : String) (rule : RuleVal)
    (ht : rule.truthy = true)
    (hc : (["array", "object", "function"].contains rule.typeOf) = false) :
    validateOneField vObj vArr object root key rule
      = .error (rule.typeOf ++ " is not a valid rule.") := by
  unfold validateOneField
  rw [if_neg (by simp [ht]), if_pos hc]

/-- Dropping a skipped key from the rule-set does not change the result of
`validateObject`. -/
theorem validateObject_skip_falsy_rule (fuel : Nat) (o root : JSVal) (k : String)
    (rule : RuleVal) (rest : List (String × RuleVal)) (h : rule.truthy = false) :
    validateObject (fuel + 1) o root (RuleVal.obj ((k, rule) :: rest))
      = validateObject (fuel + 1) o root (RuleVal.obj rest) := by
  have hskip := validateFieldsGo_skip_head (validateObject fuel)
      (validateArrayFieldGo (validateObject fuel) fuel)
      (if o.truthy = false then JSVal.obj [] else o) root k rule rest
      (validateOneField_falsy _ _ _ _ _ _ h)
  simp [validateObject, RuleVal.truthy, ruleEntries, hskip]

/-- The empty-object rule `{}` is classified as an array rule and produces an
empty array-error result on every field value. -/
theorem validateArrayFieldGo_empty_obj
    (vObj : JSVal → JSVal → RuleVal → Except String (Option ErrTree))
    (fuel : Nat) (key : String) (object root : JSVal) :
    validateArrayFieldGo vObj fuel key object root (RuleVal.obj [])
      = .ok { arrayErrors := none, arrayElementErrors := none } := by
  rw [validateArrayFieldGo_nonbuilder vObj fuel key object root (RuleVal.obj []) rfl]
  unfold validateArrayBody
  cases getProp object key <;> simp [ruleGetProp, runArrayRules, RuleVal.truthy]

/-- The empty-object rule contributes nothing for its key. -/
theorem validateOneField_empty_obj (fuel : Nat) (object root : JSVal) (key : String) :
    validateOneField (validateObject fuel) (validateArrayFieldGo (validateObject fuel) fuel)
      object root key (RuleVal.obj []) = .ok none := by
  have hobj : (["array", "object", "function"].contains "object") = true := by decide
  have hva := validateArrayFieldGo_empty_obj (validateObject fuel) fuel key object root
  simp [validateOneField, RuleVal.truthy, RuleVal.typeOf, isArrayValidationRule,
    ruleOwnKeys, hobj, hva]

/-- `validateObject` over a singleton rule-set, in terms of the per-field
processing of that single key. -/
theorem validateObject_single (fuel : Nat) (o root : JSVal) (k : String) (rule : RuleVal) :
    validateObject (fuel + 1) o root (RuleVal.obj [(k, rule)])
      = match validateOneField (validateObject fuel)
          (validateArrayFieldGo (validateObject fuel) fuel)
          (if o.truthy = false then JSVal.obj [] else o) root k rule with
        | .error e => .error e
        | .ok none => .ok none
        | .ok (some fld) => .ok (some (ErrTree.mk [(k, fld)])) := by
  cases h1 : validateOneField (validateObject fuel)
      (validateArrayFieldGo (validateObject fuel) fuel)
      (if o.truthy = false then JSVal.obj [] else o) root k rule with
  | error e => simp [validateObject, RuleVal.truthy, ruleEntries, validateFieldsGo, h1]
  | ok fe =>
      cases fe with
      | none => simp [validateObject, RuleVal.truthy, ruleEntries, validateFieldsGo, h1]
      | some fld => simp [validateObject, RuleVal.truthy, ruleEntries, validateFieldsGo, h1]

/-- A non-array-shaped object rule over an object-typed field value is
dispatched to the nested-object validator, wrapping its error tree. -/
theorem validateOneField_nested_dispatch
    (vObj : JSVal → JSVal → RuleVal → Except String (Option ErrTree))
    (vArr : String → JSVal → JSVal → RuleVal → Except String ErrorOfArray)
    (object root : JSVal) (key : String) (entries : List (String × RuleVal))
    (ha : isArrayValidationRule (RuleVal.obj entries) = false)
    (hv : (getProp object key).typeOf = "object") :
    validateOneField vObj vArr object root key (RuleVal.obj entries)
      = Except.map (Option.map FieldErr.nested)
          (vObj (getProp object key) root (RuleVal.obj entries)) := by
  have hobj : (["array", "object", "function"].contains "object") = true := by decide
  cases hcall : vObj (getProp object key) root (RuleVal.obj entries) with
  | error e =>
      simp [validateOneField, RuleVal.truthy, RuleVal.typeOf, hobj, ha, hv,
        validateObjectField, hcall, Except.map]
  | ok err =>
      cases err with
      | none =>
          simp [validateOneField, RuleVal.truthy, RuleVal.typeOf, hobj, ha, hv,
            validateObjectField, hcall, Except.map]
      | some t =>
          simp [validateOneField, RuleVal.truthy, RuleVal.typeOf, hobj, ha, hv,
            validateObjectField, hcall, Except.map]

/-- A non-array-shaped object rule over a field value that is not
object-typed is skipped entirely (no branch of the dispatch applies). -/
theorem validateOneField_skip_nonobject
    (vObj : JSVal → JSVal → RuleVal → Except String (Option ErrTree))
    (vArr : String → JSVal → JSVal → RuleVal → Except String ErrorOfArray)
    (object root : JSVal) (key : String) (entries : List (String × RuleVal))
    (ha : isArrayValidationRule (RuleVal.obj entries) = false)
    (hv : ((getProp object key).typeOf == "object") = false) :
    validateOneField vObj vArr object root key (RuleVal.obj entries) = .ok none := by
  have hobj : (["array", "object", "function"].contains "object") = true := by decide
  simp [validateOneField, RuleVal.truthy, RuleVal.typeOf, hobj, ha, hv]

/-- Claim C1: for every rule-set and root, validating a nothing object
(`undefined` or `null`) returns the same error tree as validating the empty
object `{}`: the nothing object is replaced by `{}` and iteration is driven by
the rule-set's declared keys, so required-style rules on missing fields still
produce their violations (third conjunct: a concrete required rule fires
against an absent object). -/
theorem C1_nothing_equals_empty_object :
    (∀ (fuel : Nat) (root : JSVal) (rule : RuleVal),
        validateObject fuel JSVal.undef root rule
          = validateObject fuel (JSVal.obj []) root rule) ∧
    (∀ (fuel : Nat) (root : JSVal) (rule : RuleVal),
        validateObject fuel JSVal.nullv root rule
          = validateObject fuel (JSVal.obj []) root rule) ∧
    validateObject 5 JSVal.undef JSVal.undef sampleRequiredRuleSet
      = .ok (some (ErrTree.mk [("name", FieldErr.violations ["This field is required."])])) :=
  ⟨fun fuel root rule => validateObject_falsy_object fuel JSVal.undef root rule rfl,
   fun fuel root rule => validateObject_falsy_object fuel JSVal.nullv root rule rfl,
   rfl⟩

/-- Claim C2: every key of a returned error tree is a declared key of the
rule-set (in declaration order, never a key only present on the object), every
reported field error is non-vacuous (a key is present only if the field
failed), and a returned tree is never empty — when every declared field
passes, the call returns nothing rather than an empty populated tree. -/
theorem C2_error_tree_shape :
    ∀ (fuel : Nat) (object root : JSVal) (rule : RuleVal) (t : ErrTree),
      validateObject fuel object root rule = .ok (some t) →
      t.entries ≠ [] ∧
      List.Sublist (t.entries.map Prod.fst) ((ruleEntries rule).map Prod.fst) ∧
      ∀ p ∈ t.entries, FieldErr.failedB p.2 = true := by
  intro fuel object root rule t h
  cases fuel with
  | zero => exact Except.noConfusion h
  | succ fuel =>
      simp only [validateObject] at h
      by_cases h1 : rule.truthy = false
      · rw [if_pos h1] at h; exact Except.noConfusion h
      · rw [if_neg h1] at h
        cases h2 : validateFieldsGo (validateObject fuel)
            (validateArrayFieldGo (validateObject fuel) fuel)
            (if object.truthy = false then JSVal.obj [] else object) root
            (ruleEntries rule) with
        | error e => rw [h2] at h; exact Except.noConfusion h
        | ok es =>
            rw [h2] at h
            cases es with
            | nil => simp at h
            | cons f fs =>
                simp only [Except.ok.injEq, Option.some.injEq] at h
                subst h
                obtain ⟨hs, hf⟩ := validateFieldsGo_ok _ _ _ _ _ _ h2
                exact ⟨by simp [ErrTree.entries], hs, hf⟩

/-- Witness for claim C2 at a concrete input. -/
theorem C2_error_tree_shape_witness :
    (ErrTree.mk [("name", FieldErr.violations ["This field is required."])]).entries ≠ [] ∧
    List.Sublist
      ((ErrTree.mk [("name", FieldErr.violations
          ["This field is required."])]).entries.map Prod.fst)
      ((ruleEntries sampleRequiredRuleSet).map Prod.fst) ∧
    ∀ p ∈ (ErrTree.mk [("name", FieldErr.violations ["This field is required."])]).entries,
      FieldErr.failedB p.2 = true :=
  C2_error_tree_shape 5 (JSVal.obj []) (JSVal.obj []) sampleRequiredRuleSet
    (ErrTree.mk [("name", FieldErr.violations ["This field is required."])]) rfl

/-- Claim C3 is false as stated: a dynamic builder resolving to a primitive
rule list does not yield the same violations as the statically authored list.
The builder form yields no error at all, while the static form reports the
required violation. -/
theorem C3_counterexample :
    validateObject 5 (JSVal.obj []) (JSVal.obj [])
        (RuleVal.obj
          [("name", RuleVal.builder (fun _ _ => RuleVal.list [Slot.fn requiredRule]))])
      = .ok none ∧
    validateObject 5 (JSVal.obj []) (JSVal.obj []) sampleRequiredRuleSet
      = .ok (some (ErrTree.mk [("name", FieldErr.violations ["This field is required."])])) ∧
    (Except.ok (none : Option ErrTree) : Except String (Option ErrTree))
      ≠ .ok (some (ErrTree.mk [("name", FieldErr.violations ["This field is required."])])) :=
  ⟨rfl, rfl, by simp⟩

/-- Claim C3 (amended): a builder rule is invoked exactly once with
`(currentFieldValue, root)`, but its resolved rule is always processed by the
array-field validator rather than re-classified among the four rule kinds:
a resolved non-builder rule is processed exactly as the statically authored
rule is processed by the array-field validator, at any recursion budget, and
in particular a builder resolving to a primitive rule list contributes no
violations. -/
theorem C3_amended_builder_array_dispatch :
    ∀ (vObj : JSVal → JSVal → RuleVal → Except String (Option ErrTree))
      (key : String) (object root : JSVal) (f : JSVal → JSVal → RuleVal)
      (resolved : RuleVal),
      f (getProp object key) root = resolved →
      resolved.isBuilder = false →
      (∀ m n : Nat,
          validateArrayFieldGo vObj (m + 1) key object root (RuleVal.builder f)
            = validateArrayFieldGo vObj n key object root resolved) ∧
      (∀ slots : List Slot,
          validateArrayBody vObj key object root (RuleVal.list slots)
            = .ok { arrayErrors := none, arrayElementErrors := none }) := by
  intro vObj key object root f resolved hres hnb
  constructor
  · intro m n
    have hstep : validateArrayFieldGo vObj (m + 1) key object root (RuleVal.builder f)
        = validateArrayFieldGo vObj m key object root (f (getProp object key) root) := rfl
    rw [hstep, hres, validateArrayFieldGo_nonbuilder vObj m key object root resolved hnb,
      validateArrayFieldGo_nonbuilder vObj n key object root resolved hnb]
  · intro slots
    unfold validateArrayBody
    cases getProp object key <;> simp [ruleGetProp, runArrayRules, RuleVal.truthy]

/-- Witness for the amended claim C3 at a concrete builder and rule. -/
theorem C3_amended_witness :
    validateArrayFieldGo (validateObject 5) 3 "tags" (JSVal.obj []) (JSVal.obj [])
        (RuleVal.builder (fun _ _ => sampleArrayRule))
      = validateArrayFieldGo (validateObject 5) 9 "tags" (JSVal.obj []) (JSVal.obj [])
          sampleArrayRule ∧
    validateArrayBody (validateObject 5) "tags" (JSVal.obj []) (JSVal.obj [])
        (RuleVal.list [Slot.fn requiredRule])
      = .ok { arrayErrors := none, arrayElementErrors := none } :=
  ⟨(C3_amended_builder_array_dispatch (validateObject 5) "tags" (JSVal.obj []) (JSVal.obj [])
      (fun _ _ => sampleArrayRule) sampleArrayRule rfl rfl).1 2 9,
   (C3_amended_builder_array_dispatch (validateObject 5) "tags" (JSVal.obj []) (JSVal.obj [])
      (fun _ _ => sampleArrayRule) sampleArrayRule rfl rfl).2 [Slot.fn requiredRule]⟩

/-- Claim C4 documents the intended behaviour; the code evaluates each
configured array-level rule function once per entry of the list (the loop
re-runs the whole list at every iteration), not exactly once.  With the
two-rule list `[alwaysF, alwaysG]` the invocation trace is `[0, 1, 0, 1]`
(each rule function invoked twice), while the final `arrayErrors` does hold
each rule's violation exactly once in rule-list order. -/
theorem C4_array_rules_duplicate_evaluation :
    arrayRulesLoop "items" (JSVal.obj []) (JSVal.obj [])
        [Slot.fn alwaysF, Slot.fn alwaysG] 2 none
      = .ok (some ["F", "G"], [0, 1, 0, 1]) ∧
    List.count 0 [0, 1, 0, 1] = 2 ∧
    List.count 1 [0, 1, 0, 1] = 2 ∧
    runArrayRules "items" (JSVal.obj []) (JSVal.obj [])
        (RuleVal.list [Slot.fn alwaysF, Slot.fn alwaysG])
      = .ok (some ["F", "G"]) :=
  ⟨rfl, rfl, rfl, rfl⟩

/-- Claim C5: the element error list contains exactly one entry
`{index, errors, attemptedValue}` per failing element (characterized by
`elemCheck` over the enumerated source array), with indices strictly
ascending and equal to each failing element's position, `attemptedValue`
being the element at that index, and passing elements omitted entirely. -/
theorem C5_element_errors :
    ∀ (vObj : JSVal → JSVal → RuleVal → Except String (Option ErrTree))
      (root : JSVal) (elementRule : RuleVal) (xs : List JSVal) (es : List ElemErr),
      validateElemsGo vObj root elementRule 0 xs = .ok es →
      es = (xs.enum).filterMap (elemCheck vObj root elementRule) ∧
      List.Pairwise (fun a b => a < b) (es.map ElemErr.index) ∧
      ∀ e ∈ es, xs[e.index]? = some e.attemptedValue := by
  intro vObj root elementRule xs es h
  have hchar := validateElemsGo_ok vObj root elementRule xs 0 es h
  have henum : xs.enum = xs.enumFrom 0 := rfl
  refine ⟨by rw [henum]; exact hchar, ?_, ?_⟩
  · have hs : List.Sublist (es.map ElemErr.index) ((xs.enumFrom 0).map Prod.fst) := by
      rw [hchar]
      exact filterMap_elemCheck_index_sublist vObj root elementRule _
    rw [List.enumFrom_map_fst] at hs
    exact List.Pairwise.sublist hs (List.pairwise_lt_range' 0 xs.length)
  · intro e heMem
    rw [hchar] at heMem
    have hm := mem_filterMap_elemCheck vObj root elementRule xs 0 e heMem
    simpa using hm.2

/-- Witness for claim C5: two elements where only the second fails. -/
theorem C5_element_errors_witness :
    [ElemErr.mk 1 (ErrTree.mk [("name", FieldErr.violations ["This field is required."])])
        (JSVal.obj [])]
      = (([JSVal.obj [("name", JSVal.strv "ok")], JSVal.obj []] : List JSVal).enum).filterMap
          (elemCheck (validateObject 5) (JSVal.obj []) sampleRequiredRuleSet) ∧
    List.Pairwise (fun a b => a < b)
      (([ElemErr.mk 1 (ErrTree.mk [("name", FieldErr.violations
          ["This field is required."])]) (JSVal.obj [])]).map ElemErr.index) ∧
    ∀ e ∈ [ElemErr.mk 1 (ErrTree.mk [("name", FieldErr.violations
        ["This field is required."])]) (JSVal.obj [])],
      ([JSVal.obj [("name", JSVal.strv "ok")], JSVal.obj []] : List JSVal)[e.index]?
        = some e.attemptedValue :=
  C5_element_errors (validateObject 5) (JSVal.obj []) sampleRequiredRuleSet
    [JSVal.obj [("name", JSVal.strv "ok")], JSVal.obj []]
    [ElemErr.mk 1 (ErrTree.mk [("name", FieldErr.violations ["This field is required."])])
        (JSVal.obj [])] rfl

/-- Claim C6: every function slot of a primitive rule list is invoked, in
list order, with `(object[key], root)`; no violation short-circuits the
remaining rules (the errors are the full `filterMap` of the list), the
returned errors hold all produced violations in rule-list order, the
invocation trace is the full list of function-slot positions in ascending
order, and `isValid` holds exactly when the violation list is empty. -/
theorem C6_primitive_rules_in_order :
    ∀ (key : String) (object root : JSVal) (slots : List Slot)
      (r : PrimitiveFieldValidationResult),
      validatePrimitiveField key object root slots = .ok r →
      r.errors = slots.filterMap (fun s => match s with
        | Slot.fn f => f (getProp object key) root
        | Slot.val _ => none) ∧
      (r.isValid = true ↔ r.errors = []) ∧
      runRuleList key object root 0 slots
        = .ok (r.errors, (slots.enum).filterMap (fun p => match p.2 with
            | Slot.fn _ => some p.1
            | Slot.val _ => none)) := by
  intro key object root slots r h
  obtain ⟨h1, h2, h3⟩ := validatePrimitiveField_ok h
  refine ⟨h1, ?_, h3⟩
  rw [h2]
  simp

/-- Witness for claim C6: required and minimum-length rules against an empty
string both fire, in order, with an absent slot skipped between them. -/
theorem C6_primitive_rules_in_order_witness :
    (["This field is required.", "Minimum length is 3."] : List String)
      = ([Slot.fn requiredRule, Slot.val JSVal.undef, Slot.fn minLength3Rule]).filterMap
          (fun s => match s with
            | Slot.fn f =>
                f (getProp (JSVal.obj [("name", JSVal.strv "")]) "name") (JSVal.obj [])
            | Slot.val _ => none) ∧
    (false = true ↔ (["This field is required.", "Minimum length is 3."] : List String) = []) ∧
    runRuleList "name" (JSVal.obj [("name", JSVal.strv "")]) (JSVal.obj []) 0
        [Slot.fn requiredRule, Slot.val JSVal.undef, Slot.fn minLength3Rule]
      = .ok (["This field is required.", "Minimum length is 3."],
          (([Slot.fn requiredRule, Slot.val JSVal.undef,
              Slot.fn minLength3Rule] : List Slot).enum).filterMap
            (fun p => match p.2 with
              | Slot.fn _ => some p.1
              | Slot.val _ => none)) :=
  C6_primitive_rules_in_order "name" (JSVal.obj [("name", JSVal.strv "")]) (JSVal.obj [])
    [Slot.fn requiredRule, Slot.val JSVal.undef, Slot.fn minLength3Rule]
    { isValid := false, errors := ["This field is required.", "Minimum length is 3."] } rfl

/-- Claim C7 is false as stated: a present field rule whose type is not
array/object/function does not always throw — a falsy rule such as `false`
(type "boolean") or a falsy rule-list slot such as `0` is silently skipped by
the truthiness checks that run before the type checks. -/
theorem C7_counterexample :
    validateObject 5 (JSVal.obj []) (JSVal.obj [])
        (RuleVal.obj [("age", RuleVal.boolv false)]) = .ok none ∧
    RuleVal.typeOf (RuleVal.boolv false) = "boolean" ∧
    (["array", "object", "function"].contains "boolean") = false ∧
    validatePrimitiveField "age" (JSVal.obj []) (JSVal.obj []) [Slot.val (JSVal.numv 0)]
      = .ok { isValid := true, errors := [] } :=
  ⟨rfl, rfl, by decide, rfl⟩

/-- Claim C7 (amended): configuration errors are fatal and immediate, never
encoded in the error tree: validate throws when the rule-set is falsy, throws
when a field's rule is truthy with a type other than array/object/function
(before validating that field's value), and throws when a rule-list slot is a
present truthy non-function value; a falsy rule or a falsy rule-list slot
(undefined, null, false, 0, empty string) is silently skipped rather than
throwing. -/
theorem C7_amended_config_errors :
    (∀ (fuel : Nat) (o root : JSVal) (rule : RuleVal), rule.truthy = false →
        validateObject (fuel + 1) o root rule
          = .error "validant: validation rule is null or undefined.") ∧
    (∀ (fuel : Nat) (o root : JSVal) (k : String) (rule : RuleVal)
        (rest : List (String × RuleVal)),
        rule.truthy = true →
        (["array", "object", "function"].contains rule.typeOf) = false →
        validateObject (fuel + 1) o root (RuleVal.obj ((k, rule) :: rest))
          = .error (rule.typeOf ++ " is not a valid rule.")) ∧
    (∀ (key : String) (object root : JSVal) (v : JSVal) (rest : List Slot),
        v.truthy = true →
        validatePrimitiveField key object root (Slot.val v :: rest)
          = .error "propertyRuleFunc is not a function") ∧
    (∀ (key : String) (object root : JSVal) (v : JSVal) (rest : List Slot),
        v.truthy = false →
        validatePrimitiveField key object root (Slot.val v :: rest)
          = validatePrimitiveField key object root rest) ∧
    (∀ (fuel : Nat) (o root : JSVal) (k : String) (rule : RuleVal)
        (rest : List (String × RuleVal)), rule.truthy = false →
        validateObject (fuel + 1) o root (RuleVal.obj ((k, rule) :: rest))
          = validateObject (fuel + 1) o root (RuleVal.obj rest)) := by
  refine ⟨?_, ?_, ?_, ?_, ?_⟩
  · intro fuel o root rule h
    simp [validateObject, h]
  · intro fuel o root k rule rest ht hc
    have hhead := validateOneField_bad_type (validateObject fuel)
        (validateArrayFieldGo (validateObject fuel) fuel)
        (if o.truthy = false then JSVal.obj [] else o) root k rule ht hc
    have herr := validateFieldsGo_head_error (validateObject fuel)
        (validateArrayFieldGo (validateObject fuel) fuel)
        (if o.truthy = false then JSVal.obj [] else o) root k rule rest _ hhead
    simp [validateObject, RuleVal.truthy, ruleEntries, herr]
  · intro key object root v rest h
    simp [validatePrimitiveField, runRuleList, h]
  · intro key object root v rest h
    exact validatePrimitiveField_falsy_slot key object root v rest h
  · intro fuel o root k rule rest h
    exact validateObject_skip_falsy_rule fuel o root k rule rest h

/-- Witness for the amended claim C7 at concrete inputs. -/
theorem C7_amended_witness :
    validateObject 4 (JSVal.obj []) (JSVal.obj []) RuleVal.undef
      = .error "validant: validation rule is null or undefined." ∧
    validateObject 4 (JSVal.obj []) (JSVal.obj []) (RuleVal.obj [("age", RuleVal.numv 7)])
      = .error ("number" ++ " is not a valid rule.") ∧
    validatePrimitiveField "age" (JSVal.obj []) (JSVal.obj []) [Slot.val (JSVal.strv "oops")]
      = .error "propertyRuleFunc is not a function" ∧
    validatePrimitiveField "age" (JSVal.obj []) (JSVal.obj [])
        [Slot.val (JSVal.boolv false), Slot.fn requiredRule]
      = validatePrimitiveField "age" (JSVal.obj []) (JSVal.obj []) [Slot.fn requiredRule] ∧
    validateObject 4 (JSVal.obj []) (JSVal.obj [])
        (RuleVal.obj [("age", RuleVal.numv 0), ("name", RuleVal.list [Slot.fn requiredRule])])
      = validateObject 4 (JSVal.obj []) (JSVal.obj [])
          (RuleVal.obj [("name", RuleVal.list [Slot.fn requiredRule])]) :=
  ⟨C7_amended_config_errors.1 3 (JSVal.obj []) (JSVal.obj []) RuleVal.undef rfl,
   C7_amended_config_errors.2.1 3 (JSVal.obj []) (JSVal.obj []) "age" (RuleVal.numv 7) []
     rfl (by decide),
   C7_amended_config_errors.2.2.1 "age" (JSVal.obj []) (JSVal.obj []) (JSVal.strv "oops")
     [] rfl,
   C7_amended_config_errors.2.2.2.1 "age" (JSVal.obj []) (JSVal.obj [])
     (JSVal.boolv false) [Slot.fn requiredRule] rfl,
   C7_amended_config_errors.2.2.2.2 3 (JSVal.obj []) (JSVal.obj []) "age" (RuleVal.numv 0)
     [("name", RuleVal.list [Slot.fn requiredRule])] rfl⟩

/-- Claim C8: an array-rule field whose runtime value is not an array skips
element-wise validation entirely (no crash, `arrayElementErrors` stays
absent), while the configured whole-array rules still run against the value
present (the result is exactly the whole-array-rules outcome). -/
theorem C8_nonarray_value_skips_elements :
    ∀ (vObj : JSVal → JSVal → RuleVal → Except String (Option ErrTree)) (fuel : Nat)
      (key : String) (object root : JSVal) (entries : List (String × RuleVal)),
      (getProp object key).isArr = false →
      validateArrayFieldGo vObj fuel key object root (RuleVal.obj entries)
        = Except.map (fun a => { arrayErrors := a, arrayElementErrors := none })
            (runArrayRules key object root (ruleGetProp (RuleVal.obj entries) "arrayRules")) := by
  intro vObj fuel key object root entries h
  rw [validateArrayFieldGo_nonbuilder vObj fuel key object root (RuleVal.obj entries) rfl]
  unfold validateArrayBody
  cases hr : runArrayRules key object root (ruleGetProp (RuleVal.obj entries) "arrayRules") with
  | error e => cases hval : getProp object key <;> simp_all [JSVal.isArr, Except.map]
  | ok a => cases hval : getProp object key <;> simp_all [JSVal.isArr, Except.map]

/-- Witness for claim C8: a number where an array was expected still gets the
whole-array rule applied and produces no element errors. -/
theorem C8_nonarray_value_skips_elements_witness :
    (getProp (JSVal.obj [("tags", JSVal.numv 5)]) "tags").isArr = false ∧
    validateArrayFieldGo (validateObject 3) 2 "tags" (JSVal.obj [("tags", JSVal.numv 5)])
        (JSVal.obj []) sampleArrayRule
      = Except.map (fun a => { arrayErrors := a, arrayElementErrors := none })
          (runArrayRules "tags" (JSVal.obj [("tags", JSVal.numv 5)]) (JSVal.obj [])
            (ruleGetProp sampleArrayRule "arrayRules")) ∧
    validateArrayFieldGo (validateObject 3) 2 "tags" (JSVal.obj [("tags", JSVal.numv 5)])
        (JSVal.obj []) sampleArrayRule
      = .ok { arrayErrors := some ["Array must not be empty."], arrayElementErrors := none } :=
  ⟨rfl,
   C8_nonarray_value_skips_elements (validateObject 3) 2 "tags"
     (JSVal.obj [("tags", JSVal.numv 5)]) (JSVal.obj [])
     [("arrayRules", RuleVal.list [Slot.fn nonEmptyArrayRule]),
      ("arrayElementRule", sampleRequiredRuleSet)] rfl,
   rfl⟩

/-- Claim C9: null/undefined asymmetry at nested-object dispatch.  For a
field whose rule is a nested rule-set (an object rule that is not
array-shaped): a field value of `null` is dispatched as an object
(`typeof null` is "object"), the `null` is replaced by `{}` in the recursive
call, and nested required-style violations surface as the recursive result
wrapped under the key; a field value of `undefined` skips object dispatch
entirely and the field contributes no errors at all. -/
theorem C9_null_vs_undefined_nested :
    ∀ (fuel : Nat) (o root : JSVal) (k : String) (entries : List (String × RuleVal)),
      o.truthy = true →
      isArrayValidationRule (RuleVal.obj entries) = false →
      (getProp o k = JSVal.nullv →
          validateObject (fuel + 1) o root (RuleVal.obj [(k, RuleVal.obj entries)])
            = Except.map (Option.map (fun t => ErrTree.mk [(k, FieldErr.nested t)]))
                (validateObject fuel (JSVal.obj []) root (RuleVal.obj entries))) ∧
      (getProp o k = JSVal.undef →
          validateObject (fuel + 1) o root (RuleVal.obj [(k, RuleVal.obj entries)])
            = .ok none) := by
  intro fuel o root k entries ho ha
  constructor
  · intro hv
    have hsub : validateObject fuel (getProp o k) root (RuleVal.obj entries)
        = validateObject fuel (JSVal.obj []) root (RuleVal.obj entries) := by
      rw [hv]
      exact validateObject_falsy_object fuel JSVal.nullv root (RuleVal.obj entries) rfl
    have htype : (getProp o k).typeOf = "object" := by rw [hv]; rfl
    rw [validateObject_single]
    simp only [ho, Bool.true_eq_false, if_false]
    rw [validateOneField_nested_dispatch (validateObject fuel)
        (validateArrayFieldGo (validateObject fuel) fuel) o root k entries ha htype]
    rw [hsub]
    cases validateObject fuel (JSVal.obj []) root (RuleVal.obj entries) with
    | error e => rfl
    | ok r =>
        cases r with
        | none => rfl
        | some t => rfl
  · intro hv
    have htype : ((getProp o k).typeOf == "object") = false := by rw [hv]; rfl
    rw [validateObject_single]
    simp only [ho, Bool.true_eq_false, if_false]
    rw [validateOneField_skip_nonobject (validateObject fuel)
        (validateArrayFieldGo (validateObject fuel) fuel) o root k entries ha htype]

/-- Witness for claim C9: a null profile surfaces the nested required
violation while an absent profile reports nothing. -/
theorem C9_null_vs_undefined_nested_witness :
    (validateObject 4 (JSVal.obj [("profile", JSVal.nullv)]) (JSVal.obj [])
        (RuleVal.obj [("profile",
            RuleVal.obj [("name", RuleVal.list [Slot.fn requiredRule])])])
      = Except.map (Option.map (fun t => ErrTree.mk [("profile", FieldErr.nested t)]))
          (validateObject 3 (JSVal.obj []) (JSVal.obj [])
            (RuleVal.obj [("name", RuleVal.list [Slot.fn requiredRule])]))) ∧
    (validateObject 4 (JSVal.obj [("other", JSVal.numv 1)]) (JSVal.obj [])
        (RuleVal.obj [("profile",
            RuleVal.obj [("name", RuleVal.list [Slot.fn requiredRule])])])
      = .ok none) ∧
    validateObject 4 (JSVal.obj [("profile", JSVal.nullv)]) (JSVal.obj [])
        (RuleVal.obj [("profile",
            RuleVal.obj [("name", RuleVal.list [Slot.fn requiredRule])])])
      = .ok (some (ErrTree.mk [("profile", FieldErr.nested
          (ErrTree.mk [("name", FieldErr.violations ["This field is required."])]))])) :=
  ⟨(C9_null_vs_undefined_nested 3 (JSVal.obj [("profile", JSVal.nullv)]) (JSVal.obj [])
      "profile" [("name", RuleVal.list [Slot.fn requiredRule])] rfl rfl).1 rfl,
   (C9_null_vs_undefined_nested 3 (JSVal.obj [("other", JSVal.numv 1)]) (JSVal.obj [])
      "profile" [("name", RuleVal.list [Slot.fn requiredRule])] rfl rfl).2 rfl,
   rfl⟩

/-- Claim C10: a rule value that is a non-array object with no own keys
(`{}`) satisfies the array-rule key-subset test vacuously, is always
dispatched to the array field validator (so the nested-rule-set branch is
never taken), and produces no errors for that field, for every field
value. -/
theorem C10_empty_rule_object :
    isArrayValidationRule (RuleVal.obj []) = true ∧
    (∀ (vObj : JSVal → JSVal → RuleVal → Except String (Option ErrTree)) (fuel : Nat)
        (key : String) (object root : JSVal),
        validateArrayFieldGo vObj fuel key object root (RuleVal.obj [])
          = .ok { arrayErrors := none, arrayElementErrors := none }) ∧
    (∀ (fuel : Nat) (o root : JSVal) (k : String) (rest : List (String × RuleVal)),
        validateObject (fuel + 1) o root (RuleVal.obj ((k, RuleVal.obj []) :: rest))
          = validateObject (fuel + 1) o root (RuleVal.obj rest)) := by
  refine ⟨rfl, validateArrayFieldGo_empty_obj, ?_⟩
  intro fuel o root k rest
  have hskip := validateFieldsGo_skip_head (validateObject fuel)
      (validateArrayFieldGo (validateObject fuel) fuel)
      (if o.truthy = false then JSVal.obj [] else o) root k (RuleVal.obj []) rest
      (validateOneField_empty_obj fuel (if o.truthy = false then JSVal.obj [] else o) root k)
  simp [validateObject, RuleVal.truthy, ruleEntries, hskip]

end Valty
